import Mathlib

open scoped List

/-!
Verification development for the Schema Introspection and Model Descriptor
Builder of `hasura-codegen-operations` (source file `src/unnamed/part_001`).
The GraphQL type expressions, field maps and the builder functions are
embedded as executable Lean definitions mirroring the TypeScript source.
The casing helpers `snake` and `camel` come from the external `radash`
library and are taken as function parameters throughout.
-/

/-- Kinds of named GraphQL types, as distinguished by the `graphql-js`
predicates `isObjectType`, `isInputObjectType`, `isEnumType` used in the
source; scalar, interface and union types are all outside those three
predicates, so they are listed separately here. -/
inductive TypeKind where
  | objectType
  | inputObjectType
  | scalarType
  | enumType
  | interfaceType
  | unionType
deriving DecidableEq

/-- A GraphQL field type expression: arbitrary nesting of non-null and
list wrappers around a named leaf type (mirrors `GraphQLType` as consumed
by `getInnerSchemaType`; the leaf carries the name and kind of the named
type it references). -/
inductive GqlType where
  | nonNull (inner : GqlType)
  | list (inner : GqlType)
  | named (name : String) (kind : TypeKind)
deriving DecidableEq

/-- Embeds the exported `ModelFieldSchema` record type (part_001 lines 14-20). -/
structure ModelFieldSchema where
  name : String
  type : String
  array : Bool
  nullable : Bool
  isEnum : Bool
deriving DecidableEq

/-- The `permissions` component of `ModelSchemas` (part_001 lines 24-29). -/
structure ModelPermissions where
  get : Bool
  insert : Bool
  update : Bool
  delete : Bool
deriving DecidableEq

/-- Embeds the exported `ModelSchemas` record type (part_001 lines 22-33). -/
structure ModelSchemas where
  primaryKeys : List ModelFieldSchema
  permissions : ModelPermissions
  model : List ModelFieldSchema
  insertInput : List ModelFieldSchema
  setInput : List ModelFieldSchema
deriving DecidableEq

/-- Embeds `BuildModelSchemaOptions` (part_001 lines 35-42); the three
disable lists and `primaryKeyNames` are optional in the source
(`string[] | undefined`), modelled with `Option`. -/
structure BuildModelSchemaOptions where
  disableFields : Option (List String)
  disableFieldPrefixes : Option (List String)
  disableFieldSuffixes : Option (List String)
  primaryKeyNames : Option (List String)
  headFields : List String
  tailFields : List String

/-- Embeds `getInnerSchemaType` (part_001 lines 134-167): strips non-null
and list wrappers, drops object and input-object leaves, classifies enum
leaves, and treats every other named leaf as a scalar-like leaf whose name
becomes `type`. The branch order mirrors the source `if` chain; the
branches are disjoint constructors so the order is immaterial. -/
def getInnerSchemaType : GqlType → ModelFieldSchema → Option ModelFieldSchema
  | GqlType.nonNull inner, schema =>
      getInnerSchemaType inner { schema with nullable := false }
  | GqlType.named _ TypeKind.objectType, _ => none
  | GqlType.named _ TypeKind.inputObjectType, _ => none
  | GqlType.list inner, schema =>
      getInnerSchemaType inner { schema with array := true }
  | GqlType.named n TypeKind.enumType, schema =>
      some { schema with type := n, isEnum := true }
  | GqlType.named n _, schema =>
      some { schema with type := n }

/-- The seed descriptor `buildModelSchema` passes to `getInnerSchemaType`
for a field named `key` (part_001 lines 185-190). -/
def initFieldSchema (key : String) : ModelFieldSchema :=
  { name := key, type := "", array := false, nullable := true, isEnum := false }

/-- True when a non-null wrapper occurs anywhere along the wrapper spine
of a type expression (at any depth, including inside list wrappers). -/
def spineHasNonNull : GqlType → Bool
  | GqlType.nonNull _ => true
  | GqlType.list inner => spineHasNonNull inner
  | GqlType.named _ _ => false

/-- True when a list wrapper occurs anywhere along the wrapper spine. -/
def spineHasList : GqlType → Bool
  | GqlType.nonNull inner => spineHasList inner
  | GqlType.list _ => true
  | GqlType.named _ _ => false

/-- The kind of the named leaf type at the bottom of the wrapper spine. -/
def leafKind : GqlType → TypeKind
  | GqlType.nonNull inner => leafKind inner
  | GqlType.list inner => leafKind inner
  | GqlType.named _ k => k

/-- A named GraphQL type definition as consumed by `buildModelSchema`:
its kind together with its ordered field map (field name to declared type
expression; insertion order is declaration order, matching
`Object.keys(fieldMap)` iteration order in the source). -/
structure GqlTypeDef where
  kind : TypeKind
  fields : List (String × GqlType)
deriving DecidableEq

/-- Embeds the field exclusion test inlined in `buildModelSchema`
(part_001 lines 175-179): exact match against `disableFields`, or prefix
match against `disableFieldPrefixes`, or suffix match against
`disableFieldSuffixes`; an absent (`undefined`) list contributes `false`
through the optional-chaining in the source. -/
def isFieldDisabled (options : BuildModelSchemaOptions) (key : String) : Bool :=
  (match options.disableFields with
    | some l => l.contains key
    | none => false) ||
  (match options.disableFieldPrefixes with
    | some l => l.any (fun disabledTerm => key.startsWith disabledTerm)
    | none => false) ||
  (match options.disableFieldSuffixes with
    | some l => l.any (fun disabledTerm => key.endsWith disabledTerm)
    | none => false)

/-- Embeds `buildModelSchema` (part_001 lines 169-198): a fold over the
field map in declaration order, skipping disabled fields and fields whose
unwrapped descriptor is absent, appending every produced descriptor. -/
def buildModelSchema (modelType : GqlTypeDef) (options : BuildModelSchemaOptions) :
    List ModelFieldSchema :=
  modelType.fields.foldl
    (fun acc kv =>
      if isFieldDisabled options kv.1 then acc
      else
        match getInnerSchemaType kv.2 (initFieldSchema kv.1) with
        | none => acc
        | some schema => acc ++ [schema])
    []

/-- Embeds `pickField` (part_001 lines 200-206): move the first field of
the given name (if any) from the remainder to the picked accumulator,
removing every field of that name from the remainder. -/
def pickField (acc : List ModelFieldSchema × List ModelFieldSchema) (name : String) :
    List ModelFieldSchema × List ModelFieldSchema :=
  match acc.2.find? (fun f => f.name == name) with
  | none => acc
  | some field => (acc.1 ++ [field], acc.2.filter (fun f => f.name != name))

/-- Embeds `sortFieldOrder` (part_001 lines 208-218): a head pass over
`headFields`, a tail pass over `tailFields` on what the head pass left,
then head picks ++ remainder ++ tail picks. -/
def sortFieldOrder (fields : List ModelFieldSchema) (headFields tailFields : List String) :
    List ModelFieldSchema :=
  let hp := headFields.foldl pickField ([], fields)
  let tp := tailFields.foldl pickField ([], hp.2)
  hp.1 ++ tp.2 ++ tp.1

/-- Specification helper: the sequence of first occurrences of the names
in a name list, keeping the order of first appearance. -/
def dedupKeepFirst : List String → List String
  | [] => []
  | n :: rest => n :: dedupKeepFirst (rest.filter (fun m => m != n))
termination_by l => l.length
decreasing_by
  simp only [List.length_cons]
  exact Nat.lt_succ_of_le (List.length_filter_le _ _)

/-- Specification helper: for each name in order, the first field with
that name found in `fields`, absent names skipped. -/
def pickList (fields : List ModelFieldSchema) (names : List String) :
    List ModelFieldSchema :=
  names.filterMap (fun n => fields.find? (fun f => f.name == n))

/-- An introspectable GraphQL schema as consumed by `buildModelSchemas`:
a name-keyed collection of named type definitions plus the field names of
the mutation root when a mutation type exists (the source only ever asks
whether a given mutation field name is present). -/
structure GraphQLSchema where
  types : List (String × GqlTypeDef)
  mutationFields : Option (List String)

/-- Embeds `schema.getType(name)`: the type registered under `name`, if any. -/
def GraphQLSchema.getType (schema : GraphQLSchema) (name : String) : Option GqlTypeDef :=
  (schema.types.find? (fun p => p.1 == name)).map (fun p => p.2)

/-- Embeds `isObjectType` applied to a possibly-missing lookup result
(`isObjectType(undefined)` is false in graphql-js). -/
def isObjectTypeO : Option GqlTypeDef → Bool
  | some t => t.kind == TypeKind.objectType
  | none => false

/-- Embeds `isInputObjectType` applied to a possibly-missing lookup result. -/
def isInputObjectTypeO : Option GqlTypeDef → Bool
  | some t => t.kind == TypeKind.inputObjectType
  | none => false

/-- Embeds the `modelType` resolution (part_001 lines 52, 58, 64-68): the
type under `snake(modelName)` when that lookup is an object type,
otherwise the type under `camel(modelName)` (unchecked here; the kind is
re-checked at use sites). -/
def resolveModelType (snake camel : String → String) (schema : GraphQLSchema)
    (modelName : String) : Option GqlTypeDef :=
  if isObjectTypeO (schema.getType (snake modelName)) then schema.getType (snake modelName)
  else schema.getType (camel modelName)

/-- The snake-form insert-input candidate name (part_001 line 53). -/
def insertInputTypeName (snake : String → String) (modelName : String) : String :=
  snake (snake modelName ++ "_insert_input")

/-- The snake-form set-input candidate name (part_001 line 54). -/
def setInputTypeName (snake : String → String) (modelName : String) : String :=
  snake (snake modelName ++ "_set_input")

/-- The snake-form primary-key-columns input candidate name (part_001 line 56). -/
def pkColumnsTypeName (snake : String → String) (modelName : String) : String :=
  snake (snake modelName ++ "_pk_columns_input")

/-- Embeds the `insertInputType` resolution (part_001 lines 53, 59, 70-74). -/
def resolveInsertInputType (snake camel : String → String) (schema : GraphQLSchema)
    (modelName : String) : Option GqlTypeDef :=
  if isInputObjectTypeO (schema.getType (insertInputTypeName snake modelName)) then
    schema.getType (insertInputTypeName snake modelName)
  else schema.getType (camel (insertInputTypeName snake modelName))

/-- Embeds the `setInputType` resolution (part_001 lines 54, 60, 76-80). -/
def resolveSetInputType (snake camel : String → String) (schema : GraphQLSchema)
    (modelName : String) : Option GqlTypeDef :=
  if isInputObjectTypeO (schema.getType (setInputTypeName snake modelName)) then
    schema.getType (setInputTypeName snake modelName)
  else schema.getType (camel (setInputTypeName snake modelName))

/-- Embeds the `pkInputType` resolution (part_001 lines 56, 62, 82-86). -/
def resolvePkInputType (snake camel : String → String) (schema : GraphQLSchema)
    (modelName : String) : Option GqlTypeDef :=
  if isInputObjectTypeO (schema.getType (pkColumnsTypeName snake modelName)) then
    schema.getType (pkColumnsTypeName snake modelName)
  else schema.getType (camel (pkColumnsTypeName snake modelName))

/-- Embeds `canDelete` (part_001 lines 55, 61, 88-90): the mutation root
exists and has a field named `delete_<snake(modelName)>` or the camelCase
form of that name. -/
def canDeleteModel (snake camel : String → String) (schema : GraphQLSchema)
    (modelName : String) : Bool :=
  match schema.mutationFields with
  | none => false
  | some mf =>
      mf.contains ("delete_" ++ snake modelName)
        || mf.contains (camel ("delete_" ++ snake modelName))

/-- Embeds `isObjectType(modelType) ? buildModelSchema(modelType, options) : []`
(part_001 lines 92-94). -/
def buildObjectSchemaList (t : Option GqlTypeDef) (options : BuildModelSchemaOptions) :
    List ModelFieldSchema :=
  match t with
  | some td => if td.kind == TypeKind.objectType then buildModelSchema td options else []
  | none => []

/-- Embeds `isInputObjectType(t) ? buildModelSchema(t, options) : []`
(part_001 lines 96-102). -/
def buildInputSchemaList (t : Option GqlTypeDef) (options : BuildModelSchemaOptions) :
    List ModelFieldSchema :=
  match t with
  | some td => if td.kind == TypeKind.inputObjectType then buildModelSchema td options else []
  | none => []

/-- The filtered (pre-ordering) field list of the resolved model type. -/
def modelList (snake camel : String → String) (schema : GraphQLSchema)
    (options : BuildModelSchemaOptions) (modelName : String) : List ModelFieldSchema :=
  buildObjectSchemaList (resolveModelType snake camel schema modelName) options

/-- The filtered (pre-ordering) field list of the resolved insert-input type. -/
def insertInputList (snake camel : String → String) (schema : GraphQLSchema)
    (options : BuildModelSchemaOptions) (modelName : String) : List ModelFieldSchema :=
  buildInputSchemaList (resolveInsertInputType snake camel schema modelName) options

/-- The filtered (pre-ordering) field list of the resolved set-input type. -/
def setInputList (snake camel : String → String) (schema : GraphQLSchema)
    (options : BuildModelSchemaOptions) (modelName : String) : List ModelFieldSchema :=
  buildInputSchemaList (resolveSetInputType snake camel schema modelName) options

/-- Embeds the fallback predicate `options.primaryKeyNames?.includes(m.name)`
(part_001 line 106). -/
def pkNameMatch (options : BuildModelSchemaOptions) (name : String) : Bool :=
  match options.primaryKeyNames with
  | some l => l.contains name
  | none => false

/-- Embeds the `primaryKeys` computation (part_001 lines 104-106): the
filtered field list of the pk-input type when it resolved as an
input-object type, otherwise the already-filtered model field list
restricted to `primaryKeyNames`. -/
def primaryKeysList (snake camel : String → String) (schema : GraphQLSchema)
    (options : BuildModelSchemaOptions) (modelName : String) : List ModelFieldSchema :=
  match resolvePkInputType snake camel schema modelName with
  | some td =>
      if td.kind == TypeKind.inputObjectType then buildModelSchema td options
      else (modelList snake camel schema options modelName).filter
        (fun m => pkNameMatch options m.name)
  | none =>
      (modelList snake camel schema options modelName).filter
        (fun m => pkNameMatch options m.name)

/-- The error message thrown by `buildModelSchemas` (part_001 lines 122-124). -/
def modelNotFoundMessage (modelName : String) : String :=
  s!"model {modelName} doesn\x27t exist, or maybe the role doesn\x27t have any permission"

/-- The `result` record assembled per model (part_001 lines 108-119). -/
def buildModelResult (snake camel : String → String) (schema : GraphQLSchema)
    (options : BuildModelSchemaOptions) (modelName : String) : ModelSchemas :=
  { primaryKeys := primaryKeysList snake camel schema options modelName
    model := sortFieldOrder (modelList snake camel schema options modelName)
      options.headFields options.tailFields
    insertInput := sortFieldOrder (insertInputList snake camel schema options modelName)
      options.headFields options.tailFields
    setInput := sortFieldOrder (setInputList snake camel schema options modelName)
      options.headFields options.tailFields
    permissions :=
      { get := decide (0 < (modelList snake camel schema options modelName).length)
        insert := decide (0 < (insertInputList snake camel schema options modelName).length)
        update := decide (0 < (setInputList snake camel schema options modelName).length)
        delete := canDeleteModel snake camel schema modelName } }

/-- Embeds the per-model body of the `models.reduce` callback (part_001
lines 51-130): assembles the `ModelSchemas` record and fails when the
ordered `model`, `insertInput` and `setInput` lists are all empty
(part_001 lines 121-125). -/
def buildModelEntry (snake camel : String → String) (schema : GraphQLSchema)
    (options : BuildModelSchemaOptions) (modelName : String) : Except String ModelSchemas :=
  let result := buildModelResult snake camel schema options modelName
  if result.model.length == 0 && result.insertInput.length == 0
      && result.setInput.length == 0 then
    Except.error (modelNotFoundMessage modelName)
  else Except.ok result

/-- Embeds the object-spread accumulation `{...acc, [modelName]: result}`:
an existing key keeps its position and gets the new value, a new key is
appended at the end. -/
def insertEntry (acc : List (String × ModelSchemas)) (key : String) (value : ModelSchemas) :
    List (String × ModelSchemas) :=
  if acc.any (fun p => p.1 == key) then
    acc.map (fun p => if p.1 == key then (key, value) else p)
  else acc ++ [(key, value)]

/-- The `models.reduce` loop of `buildModelSchemas` (part_001 lines
51-131): models are processed in caller order, accumulating the keyed
result map; a thrown error aborts the whole reduce. -/
def buildModelSchemasAux (snake camel : String → String) (schema : GraphQLSchema)
    (options : BuildModelSchemaOptions) :
    List String → List (String × ModelSchemas) → Except String (List (String × ModelSchemas))
  | [], acc => Except.ok acc
  | modelName :: rest, acc =>
      match buildModelEntry snake camel schema options modelName with
      | Except.error e => Except.error e
      | Except.ok result =>
          buildModelSchemasAux snake camel schema options rest (insertEntry acc modelName result)

/-- Embeds `buildModelSchemas` (part_001 lines 44-132). -/
def buildModelSchemas (snake camel : String → String) (schema : GraphQLSchema)
    (models : List String) (options : BuildModelSchemaOptions) :
    Except String (List (String × ModelSchemas)) :=
  buildModelSchemasAux snake camel schema options models []

/-- The failure condition of the builder for one model, stated on the
pre-ordering filtered lists: all three of `model`, `insertInput`,
`setInput` are empty after filtering. -/
def allListsEmpty (snake camel : String → String) (schema : GraphQLSchema)
    (options : BuildModelSchemaOptions) (modelName : String) : Prop :=
  modelList snake camel schema options modelName = []
    ∧ insertInputList snake camel schema options modelName = []
    ∧ setInputList snake camel schema options modelName = []

instance (snake camel : String → String) (schema : GraphQLSchema)
    (options : BuildModelSchemaOptions) (modelName : String) :
    Decidable (allListsEmpty snake camel schema options modelName) := by
  unfold allListsEmpty
  infer_instance

/-- A small concrete schema used by witness instances: one object type
`users` with a scalar `id` field, and a mutation root exposing
`delete_users`. -/
def wSchema : GraphQLSchema :=
  { types := [("users",
      { kind := TypeKind.objectType,
        fields := [("id", GqlType.named "Int" TypeKind.scalarType)] })],
    mutationFields := some ["delete_users"] }

/-- Witness options: no exclusion rules, no primary key names, no ordering. -/
def wOptions : BuildModelSchemaOptions :=
  { disableFields := none, disableFieldPrefixes := none, disableFieldSuffixes := none,
    primaryKeyNames := none, headFields := [], tailFields := [] }

theorem getInnerSchemaType_nullable (t : GqlType) :
    ∀ seed r, getInnerSchemaType t seed = some r →
      r.nullable = (seed.nullable && !spineHasNonNull t) := by
  induction t with
  | nonNull inner ih =>
    intro seed r h
    simp only [getInnerSchemaType] at h
    have := ih _ _ h
    simp [spineHasNonNull, this]
  | list inner ih =>
    intro seed r h
    simp only [getInnerSchemaType] at h
    have := ih _ _ h
    simpa [spineHasNonNull] using this
  | named n k =>
    intro seed r h
    cases k <;> simp [getInnerSchemaType, spineHasNonNull] at h <;>
      simp [← h, spineHasNonNull]

theorem getInnerSchemaType_array (t : GqlType) :
    ∀ seed r, getInnerSchemaType t seed = some r →
      r.array = (seed.array || spineHasList t) := by
  induction t with
  | nonNull inner ih =>
    intro seed r h
    simp only [getInnerSchemaType] at h
    simpa [spineHasList] using ih _ _ h
  | list inner ih =>
    intro seed r h
    simp only [getInnerSchemaType] at h
    have := ih _ _ h
    simp [spineHasList, this]
  | named n k =>
    intro seed r h
    cases k <;> simp [getInnerSchemaType, spineHasList] at h <;>
      simp [← h, spineHasList]

theorem getInnerSchemaType_name (t : GqlType) :
    ∀ seed r, getInnerSchemaType t seed = some r → r.name = seed.name := by
  induction t with
  | nonNull inner ih =>
    intro seed r h
    simp only [getInnerSchemaType] at h
    simpa using ih _ _ h
  | list inner ih =>
    intro seed r h
    simp only [getInnerSchemaType] at h
    simpa using ih _ _ h
  | named n k =>
    intro seed r h
    cases k <;> simp [getInnerSchemaType] at h <;> simp [← h]

theorem getInnerSchemaType_none_iff (t : GqlType) :
    ∀ seed, getInnerSchemaType t seed = none ↔
      (leafKind t = TypeKind.objectType ∨ leafKind t = TypeKind.inputObjectType) := by
  induction t with
  | nonNull inner ih =>
    intro seed
    simp only [getInnerSchemaType, leafKind]
    exact ih _
  | list inner ih =>
    intro seed
    simp only [getInnerSchemaType, leafKind]
    exact ih _
  | named n k =>
    intro seed
    cases k <;> simp [getInnerSchemaType, leafKind]

theorem buildModelSchema_eq_filterMap (modelType : GqlTypeDef)
    (options : BuildModelSchemaOptions) :
    buildModelSchema modelType options =
      modelType.fields.filterMap
        (fun kv =>
          if isFieldDisabled options kv.1 then none
          else getInnerSchemaType kv.2 (initFieldSchema kv.1)) := by
  suffices h : ∀ (fields : List (String × GqlType)) (acc : List ModelFieldSchema),
      fields.foldl
        (fun acc kv =>
          if isFieldDisabled options kv.1 then acc
          else
            match getInnerSchemaType kv.2 (initFieldSchema kv.1) with
            | none => acc
            | some schema => acc ++ [schema])
        acc
      = acc ++ fields.filterMap
          (fun kv =>
            if isFieldDisabled options kv.1 then none
            else getInnerSchemaType kv.2 (initFieldSchema kv.1)) by
    simpa [buildModelSchema] using h modelType.fields []
  intro fields
  induction fields with
  | nil => intro acc; simp
  | cons kv fields ih =>
    intro acc
    by_cases hd : isFieldDisabled options kv.1
    · simp [List.foldl_cons, hd, ih]
    · cases hg : getInnerSchemaType kv.2 (initFieldSchema kv.1) with
      | none => simp [List.foldl_cons, hd, hg, ih]
      | some schema => simp [List.foldl_cons, hd, hg, ih]

theorem mem_buildModelSchema {f : ModelFieldSchema} {td : GqlTypeDef}
    {options : BuildModelSchemaOptions} :
    f ∈ buildModelSchema td options ↔
      ∃ kv ∈ td.fields, isFieldDisabled options kv.1 = false ∧
        getInnerSchemaType kv.2 (initFieldSchema kv.1) = some f := by
  rw [buildModelSchema_eq_filterMap, List.mem_filterMap]
  constructor
  · rintro ⟨kv, hmem, heq⟩
    by_cases hd : isFieldDisabled options kv.1
    · simp [hd] at heq
    · exact ⟨kv, hmem, by simpa using hd, by simpa [hd] using heq⟩
  · rintro ⟨kv, hmem, hd, hg⟩
    exact ⟨kv, hmem, by simp [hd, hg]⟩

theorem buildModelSchema_not_disabled {f : ModelFieldSchema} {td : GqlTypeDef}
    {options : BuildModelSchemaOptions}
    (h : f ∈ buildModelSchema td options) :
    isFieldDisabled options f.name = false := by
  obtain ⟨kv, _, hd, hg⟩ := mem_buildModelSchema.mp h
  have hn := getInnerSchemaType_name _ _ _ hg
  rw [hn]
  exact hd

theorem find?_name_none_of_filter {rem : List ModelFieldSchema} {n : String}
    (q : ModelFieldSchema → Bool)
    (h : rem.find? (fun f => f.name == n) = none) :
    (rem.filter q).find? (fun f => f.name == n) = none := by
  rw [List.find?_eq_none] at h ⊢
  intro x hx
  exact h x (List.mem_of_mem_filter hx)

theorem pickField_none {hs rem : List ModelFieldSchema} {n : String}
    (h : rem.find? (fun f => f.name == n) = none) :
    pickField (hs, rem) n = (hs, rem) := by
  simp [pickField, h]

theorem pickField_some {hs rem : List ModelFieldSchema} {n : String}
    {field : ModelFieldSchema}
    (h : rem.find? (fun f => f.name == n) = some field) :
    pickField (hs, rem) n = (hs ++ [field], rem.filter (fun f => f.name != n)) := by
  simp [pickField, h]

theorem foldl_pickField_skip (n : String) :
    ∀ (ns : List String) (hs rem : List ModelFieldSchema),
      rem.find? (fun f => f.name == n) = none →
      ns.foldl pickField (hs, rem) =
        (ns.filter (fun m => m != n)).foldl pickField (hs, rem) := by
  intro ns
  induction ns with
  | nil => intro hs rem _; rfl
  | cons m ns ih =>
    intro hs rem h
    rw [List.filter_cons]
    by_cases hm : (m != n) = true
    · rw [if_pos hm]
      simp only [List.foldl_cons]
      cases hf : rem.find? (fun f => f.name == m) with
      | none =>
        rw [pickField_none hf]
        exact ih hs rem h
      | some field =>
        rw [pickField_some hf]
        exact ih _ _ (find?_name_none_of_filter _ h)
    · have hmn : m = n := of_not_not fun hne => hm (bne_iff_ne.mpr hne)
      subst hmn
      rw [if_neg hm]
      simp only [List.foldl_cons]
      rw [pickField_none h]
      exact ih hs rem h

theorem contains_filter_bne {x n : String} (ns : List String) (hx : (x == n) = false) :
    (ns.filter (fun m => m != n)).contains x = ns.contains x := by
  induction ns with
  | nil => rfl
  | cons m ns ih =>
    rw [List.filter_cons]
    by_cases hm : (m != n) = true
    · rw [if_pos hm]
      simp only [List.contains_cons, ih]
    · have hmn : m = n := of_not_not fun hne => hm (bne_iff_ne.mpr hne)
      subst hmn
      rw [if_neg hm]
      simp only [ih, List.contains_cons, hx, Bool.false_or]

theorem find?_name_filter {rem : List ModelFieldSchema} {m n : String} (hmn : m ≠ n) :
    (rem.filter (fun f => f.name != n)).find? (fun f => f.name == m)
      = rem.find? (fun f => f.name == m) := by
  induction rem with
  | nil => rfl
  | cons g rem ih =>
    rw [List.filter_cons]
    by_cases hg : g.name = n
    · rw [if_neg (by simp [hg])]
      have hgm : (g.name == m) = false := by
        simp [hg]
        exact fun h => hmn h.symm
      rw [List.find?_cons]
      rw [hgm]
      exact ih
    · rw [if_pos (bne_iff_ne.mpr hg)]
      rw [List.find?_cons, List.find?_cons]
      by_cases hgm : (g.name == m) = true
      · rw [hgm]
      · rw [eq_false_of_ne_true hgm]
        exact ih

theorem pickList_filter_ne {rem : List ModelFieldSchema} {n : String} :
    ∀ (D : List String), (∀ m ∈ D, m ≠ n) →
      pickList (rem.filter (fun f => f.name != n)) D = pickList rem D := by
  intro D
  induction D with
  | nil => intro _; rfl
  | cons m D ih =>
    intro hD
    have ihD := ih (fun x hx => hD x (List.mem_cons_of_mem _ hx))
    simp only [pickList, List.filterMap_cons]
    rw [find?_name_filter (hD m (List.mem_cons_self m D))]
    cases rem.find? (fun f => f.name == m) with
    | none => exact ihD
    | some f => exact congrArg (fun l => f :: l) ihD

theorem mem_dedupKeepFirst :
    ∀ (l : List String) (x : String), x ∈ dedupKeepFirst l ↔ x ∈ l
  | [], x => by simp [dedupKeepFirst]
  | n :: rest, x => by
    rw [dedupKeepFirst]
    simp only [List.mem_cons,
      mem_dedupKeepFirst (rest.filter (fun m => m != n)) x, List.mem_filter]
    constructor
    · rintro (rfl | ⟨hx, _⟩)
      · exact Or.inl rfl
      · exact Or.inr hx
    · rintro (rfl | hx)
      · exact Or.inl rfl
      · by_cases hxn : x = n
        · exact Or.inl hxn
        · exact Or.inr ⟨hx, bne_iff_ne.mpr hxn⟩
termination_by l => l.length
decreasing_by
  simp only [List.length_cons]
  exact Nat.lt_succ_of_le (List.length_filter_le _ _)

theorem foldl_pickField_eq :
    ∀ (ns : List String) (hs rem : List ModelFieldSchema),
      ns.foldl pickField (hs, rem) =
        (hs ++ pickList rem (dedupKeepFirst ns),
         rem.filter (fun f => !ns.contains f.name))
  | [], hs, rem => by
      simp [pickList, dedupKeepFirst]
  | n :: ns, hs, rem => by
    have hdk : dedupKeepFirst (n :: ns)
        = n :: dedupKeepFirst (ns.filter (fun m => m != n)) := by
      rw [dedupKeepFirst]
    cases hf : rem.find? (fun f => f.name == n) with
    | none =>
      have hstep : (n :: ns).foldl pickField (hs, rem) = ns.foldl pickField (hs, rem) := by
        simp only [List.foldl_cons]
        rw [pickField_none hf]
      rw [hstep, foldl_pickField_skip n ns hs rem hf,
          foldl_pickField_eq (ns.filter (fun m => m != n)) hs rem]
      rw [Prod.mk.injEq]
      refine ⟨?_, ?_⟩
      · rw [hdk]
        simp [pickList, List.filterMap_cons, hf]
      · refine List.filter_congr ?_
        intro f hfmem
        have hx : (f.name == n) = false :=
          eq_false_of_ne_true (List.find?_eq_none.mp hf f hfmem)
        simp only [contains_filter_bne ns hx, List.contains_cons, hx, Bool.false_or]
    | some field =>
      have hstep : (n :: ns).foldl pickField (hs, rem) =
          ns.foldl pickField (hs ++ [field], rem.filter (fun f => f.name != n)) := by
        simp only [List.foldl_cons]
        rw [pickField_some hf]
      have hnone : (rem.filter (fun f => f.name != n)).find? (fun f => f.name == n) = none := by
        rw [List.find?_eq_none]
        intro x hx
        have hxeq : (x.name == n) = false := by
          have := List.of_mem_filter hx
          simpa [bne] using this
        simp [hxeq]
      rw [hstep, foldl_pickField_skip n ns _ _ hnone,
          foldl_pickField_eq (ns.filter (fun m => m != n)) (hs ++ [field])
            (rem.filter (fun f => f.name != n))]
      rw [Prod.mk.injEq]
      refine ⟨?_, ?_⟩
      · rw [hdk]
        have hne : ∀ m ∈ dedupKeepFirst (ns.filter (fun m => m != n)), m ≠ n := by
          intro m hm
          have hm' := List.of_mem_filter ((mem_dedupKeepFirst _ m).mp hm)
          exact bne_iff_ne.mp hm'
        rw [pickList_filter_ne _ hne]
        simp [pickList, List.filterMap_cons, hf]
      · rw [List.filter_filter]
        refine List.filter_congr ?_
        intro f _
        by_cases hx : (f.name == n) = true
        · have hxn : f.name = n := eq_of_beq hx
          simp [hxn, List.contains_cons]
        · have hx' : (f.name == n) = false := eq_false_of_ne_true hx
          have hcf := contains_filter_bne ns hx'
          simp only [List.contains_cons, hx', Bool.false_or, bne, Bool.not_false,
            Bool.and_true]
          exact congrArg (fun b => !b) hcf
termination_by ns => ns.length
decreasing_by
  all_goals simp only [List.length_cons]
  all_goals exact Nat.lt_succ_of_le (List.length_filter_le _ _)

theorem sortFieldOrder_eq (fields : List ModelFieldSchema) (headFields tailFields : List String) :
    sortFieldOrder fields headFields tailFields =
      pickList fields (dedupKeepFirst headFields)
        ++ fields.filter (fun f => !headFields.contains f.name && !tailFields.contains f.name)
        ++ pickList (fields.filter (fun f => !headFields.contains f.name))
             (dedupKeepFirst tailFields) := by
  simp only [sortFieldOrder]
  rw [foldl_pickField_eq headFields [] fields]
  rw [foldl_pickField_eq tailFields []
        (fields.filter (fun f => !headFields.contains f.name))]
  simp only [List.nil_append]
  rw [List.filter_filter]
  rw [List.filter_congr (fun f _ => Bool.and_comm _ _)]

theorem perm_cons_find? {rem : List ModelFieldSchema} {n : String} {field : ModelFieldSchema} :
    (rem.map ModelFieldSchema.name).Nodup →
    rem.find? (fun f => f.name == n) = some field →
    rem ~ field :: rem.filter (fun f => f.name != n) := by
  induction rem with
  | nil => intro _ h; simp at h
  | cons g rem ih =>
    intro hnd h
    rw [List.find?_cons] at h
    have hnd2 : (rem.map ModelFieldSchema.name).Nodup := by
      rw [List.map_cons, List.nodup_cons] at hnd
      exact hnd.2
    by_cases hg : (g.name == n) = true
    · rw [hg] at h
      have hgf : g = field := by injection h
      have hgn : g.name = n := eq_of_beq hg
      rw [List.filter_cons, if_neg (by simp [hgn])]
      have hrest : rem.filter (fun f => f.name != n) = rem := by
        rw [List.filter_eq_self]
        intro a ha
        have hain : g.name ∉ rem.map ModelFieldSchema.name := by
          rw [List.map_cons, List.nodup_cons] at hnd
          exact hnd.1
        refine bne_iff_ne.mpr fun hcontra => hain ?_
        rw [hgn, ← hcontra]
        exact List.mem_map_of_mem _ ha
      rw [hrest, hgf]
    · rw [eq_false_of_ne_true hg] at h
      rw [List.filter_cons, if_pos (by simp [bne, eq_false_of_ne_true hg])]
      exact ((ih hnd2 h).cons g).trans (List.Perm.swap field g _)

theorem foldl_pickField_sublist :
    ∀ (ns : List String) (hs rem : List ModelFieldSchema),
      (ns.foldl pickField (hs, rem)).2 <+ rem := by
  intro ns
  induction ns with
  | nil => intro hs rem; exact List.Sublist.refl _
  | cons n ns ih =>
    intro hs rem
    rw [List.foldl_cons]
    cases hf : rem.find? (fun f => f.name == n) with
    | none =>
      rw [pickField_none hf]
      exact ih hs rem
    | some field =>
      rw [pickField_some hf]
      exact (ih _ _).trans (List.filter_sublist _)

theorem foldl_pickField_perm :
    ∀ (ns : List String) (hs rem : List ModelFieldSchema),
      (rem.map ModelFieldSchema.name).Nodup →
      ((ns.foldl pickField (hs, rem)).1 ++ (ns.foldl pickField (hs, rem)).2) ~ (hs ++ rem) := by
  intro ns
  induction ns with
  | nil => intro hs rem _; exact List.Perm.refl _
  | cons n ns ih =>
    intro hs rem hnd
    rw [List.foldl_cons]
    cases hf : rem.find? (fun f => f.name == n) with
    | none =>
      rw [pickField_none hf]
      exact ih hs rem hnd
    | some field =>
      rw [pickField_some hf]
      have hnd2 : ((rem.filter (fun f => f.name != n)).map ModelFieldSchema.name).Nodup :=
        List.Nodup.sublist ((List.filter_sublist rem).map ModelFieldSchema.name) hnd
      refine (ih (hs ++ [field]) (rem.filter (fun f => f.name != n)) hnd2).trans ?_
      have h1 : rem ~ field :: rem.filter (fun f => f.name != n) := perm_cons_find? hnd hf
      have h2 : (hs ++ [field]) ++ rem.filter (fun f => f.name != n)
          = hs ++ (field :: rem.filter (fun f => f.name != n)) := by
        rw [List.append_assoc, List.singleton_append]
      rw [h2]
      exact List.Perm.append_left hs h1.symm

theorem sortFieldOrder_perm (fields : List ModelFieldSchema)
    (headFields tailFields : List String)
    (hnd : (fields.map ModelFieldSchema.name).Nodup) :
    sortFieldOrder fields headFields tailFields ~ fields := by
  have h1 := foldl_pickField_perm headFields [] fields hnd
  have hsub := foldl_pickField_sublist headFields [] fields
  have hnd2 : (((headFields.foldl pickField ([], fields)).2).map ModelFieldSchema.name).Nodup :=
    List.Nodup.sublist (hsub.map ModelFieldSchema.name) hnd
  have h2 := foldl_pickField_perm tailFields [] ((headFields.foldl pickField ([], fields)).2) hnd2
  simp only [sortFieldOrder]
  refine List.Perm.trans ?_ (by simpa using h1)
  rw [List.append_assoc]
  refine List.Perm.append_left _ ?_
  refine List.Perm.trans List.perm_append_comm ?_
  simpa using h2

theorem pickList_nil (names : List String) : pickList [] names = [] := by
  induction names with
  | nil => rfl
  | cons n names ih =>
    simp only [pickList, List.filterMap_cons, List.find?_nil] at ih ⊢
    exact ih

theorem sortFieldOrder_eq_nil_iff (fields : List ModelFieldSchema)
    (headFields tailFields : List String) :
    sortFieldOrder fields headFields tailFields = [] ↔ fields = [] := by
  constructor
  · intro h
    by_contra hne
    obtain ⟨f, rest, rfl⟩ := List.exists_cons_of_ne_nil hne
    rw [sortFieldOrder_eq] at h
    rcases List.append_eq_nil.mp h with ⟨h12, hT⟩
    rcases List.append_eq_nil.mp h12 with ⟨hH, hM⟩
    by_cases hh : headFields.contains f.name = true
    · have hmem : f.name ∈ dedupKeepFirst headFields :=
        (mem_dedupKeepFirst _ _).mpr (List.mem_of_elem_eq_true hh)
      obtain ⟨g, hg⟩ : ∃ g, (f :: rest).find? (fun x => x.name == f.name) = some g := by
        cases hfd : (f :: rest).find? (fun x => x.name == f.name) with
        | some g => exact ⟨g, rfl⟩
        | none => exact absurd (List.find?_eq_none.mp hfd f (by simp)) (by simp)
      have hin : g ∈ pickList (f :: rest) (dedupKeepFirst headFields) := by
        rw [pickList, List.mem_filterMap]
        exact ⟨f.name, hmem, hg⟩
      rw [hH] at hin
      exact absurd hin (List.not_mem_nil g)
    · by_cases ht : tailFields.contains f.name = true
      · have hmemf : f ∈ (f :: rest).filter (fun x => !headFields.contains x.name) := by
          rw [List.mem_filter]
          exact ⟨by simp, by simpa using hh⟩
        have hmem : f.name ∈ dedupKeepFirst tailFields :=
          (mem_dedupKeepFirst _ _).mpr (List.mem_of_elem_eq_true ht)
        obtain ⟨g, hg⟩ : ∃ g, ((f :: rest).filter (fun x => !headFields.contains x.name)).find?
            (fun x => x.name == f.name) = some g := by
          cases hfd : ((f :: rest).filter (fun x => !headFields.contains x.name)).find?
              (fun x => x.name == f.name) with
          | some g => exact ⟨g, rfl⟩
          | none => exact absurd (List.find?_eq_none.mp hfd f hmemf) (by simp)
        have hin : g ∈ pickList ((f :: rest).filter (fun x => !headFields.contains x.name))
            (dedupKeepFirst tailFields) := by
          rw [pickList, List.mem_filterMap]
          exact ⟨f.name, hmem, hg⟩
        rw [hT] at hin
        exact absurd hin (List.not_mem_nil g)
      · have hh2 : f.name ∉ headFields := by simpa using hh
        have ht2 : f.name ∉ tailFields := by simpa using ht
        have hin : f ∈ (f :: rest).filter
            (fun x => !headFields.contains x.name && !tailFields.contains x.name) := by
          rw [List.mem_filter]
          exact ⟨by simp, by simp [hh2, ht2]⟩
        rw [hM] at hin
        exact absurd hin (List.not_mem_nil f)
  · rintro rfl
    rw [sortFieldOrder_eq]
    simp [pickList_nil]

theorem mem_of_mem_pickList {g : ModelFieldSchema} {fields : List ModelFieldSchema}
    {names : List String} (h : g ∈ pickList fields names) : g ∈ fields := by
  rw [pickList, List.mem_filterMap] at h
  obtain ⟨n, _, hfind⟩ := h
  exact List.mem_of_find?_eq_some hfind

theorem mem_of_mem_sortFieldOrder {g : ModelFieldSchema} {fields : List ModelFieldSchema}
    {headFields tailFields : List String}
    (h : g ∈ sortFieldOrder fields headFields tailFields) : g ∈ fields := by
  rw [sortFieldOrder_eq] at h
  rcases List.mem_append.mp h with h12 | hT
  · rcases List.mem_append.mp h12 with hH | hM
    · exact mem_of_mem_pickList hH
    · exact List.mem_of_mem_filter hM
  · exact List.mem_of_mem_filter (mem_of_mem_pickList hT)

theorem buildModelEntry_cond_iff (snake camel : String → String) (schema : GraphQLSchema)
    (options : BuildModelSchemaOptions) (modelName : String) :
    ((buildModelResult snake camel schema options modelName).model.length == 0
      && (buildModelResult snake camel schema options modelName).insertInput.length == 0
      && (buildModelResult snake camel schema options modelName).setInput.length == 0) = true
    ↔ allListsEmpty snake camel schema options modelName := by
  simp only [buildModelResult, allListsEmpty, Bool.and_eq_true, beq_iff_eq,
    List.length_eq_zero, sortFieldOrder_eq_nil_iff, and_assoc]

theorem buildModelEntry_error_iff (snake camel : String → String) (schema : GraphQLSchema)
    (options : BuildModelSchemaOptions) (modelName : String) (e : String) :
    buildModelEntry snake camel schema options modelName = Except.error e ↔
      (allListsEmpty snake camel schema options modelName
        ∧ e = modelNotFoundMessage modelName) := by
  simp only [buildModelEntry]
  by_cases hc : ((buildModelResult snake camel schema options modelName).model.length == 0
      && (buildModelResult snake camel schema options modelName).insertInput.length == 0
      && (buildModelResult snake camel schema options modelName).setInput.length == 0) = true
  · rw [if_pos hc]
    have := (buildModelEntry_cond_iff snake camel schema options modelName).mp hc
    constructor
    · intro h
      injection h with h
      exact ⟨this, h.symm⟩
    · rintro ⟨_, rfl⟩
      rfl
  · rw [if_neg hc]
    constructor
    · intro h
      exact absurd h (by simp)
    · rintro ⟨hempty, rfl⟩
      exact absurd ((buildModelEntry_cond_iff snake camel schema options modelName).mpr hempty) hc

theorem buildModelEntry_ok_iff (snake camel : String → String) (schema : GraphQLSchema)
    (options : BuildModelSchemaOptions) (modelName : String) (result : ModelSchemas) :
    buildModelEntry snake camel schema options modelName = Except.ok result ↔
      (¬ allListsEmpty snake camel schema options modelName
        ∧ result = buildModelResult snake camel schema options modelName) := by
  simp only [buildModelEntry]
  by_cases hc : ((buildModelResult snake camel schema options modelName).model.length == 0
      && (buildModelResult snake camel schema options modelName).insertInput.length == 0
      && (buildModelResult snake camel schema options modelName).setInput.length == 0) = true
  · rw [if_pos hc]
    have := (buildModelEntry_cond_iff snake camel schema options modelName).mp hc
    constructor
    · intro h
      exact absurd h (by simp)
    · rintro ⟨hne, _⟩
      exact absurd this hne
  · rw [if_neg hc]
    have hne := fun h =>
      hc ((buildModelEntry_cond_iff snake camel schema options modelName).mpr h)
    constructor
    · intro h
      injection h with h
      exact ⟨hne, h.symm⟩
    · rintro ⟨_, rfl⟩
      rfl

theorem insertEntry_keys_mem (acc : List (String × ModelSchemas)) (key : String)
    (value : ModelSchemas) (h : acc.any (fun p => p.1 == key) = true) :
    (insertEntry acc key value).map Prod.fst = acc.map Prod.fst := by
  rw [insertEntry, if_pos h, List.map_map]
  have hfun : (Prod.fst ∘ fun p : String × ModelSchemas =>
      if p.1 == key then (key, value) else p) = Prod.fst := by
    funext p
    by_cases hp : (p.1 == key) = true
    · simp [hp, eq_of_beq hp]
    · have hp2 : ¬(p.1 = key) := by simpa using hp
      simp [hp2]
  rw [hfun]

theorem insertEntry_keys_append (acc : List (String × ModelSchemas)) (key : String)
    (value : ModelSchemas) (h : acc.any (fun p => p.1 == key) = false) :
    (insertEntry acc key value).map Prod.fst = acc.map Prod.fst ++ [key] := by
  rw [insertEntry, if_neg (by simp [h]), List.map_append]
  rfl

theorem insertEntry_keys_nodup (acc : List (String × ModelSchemas)) (key : String)
    (value : ModelSchemas) (h : (acc.map Prod.fst).Nodup) :
    ((insertEntry acc key value).map Prod.fst).Nodup := by
  cases hany : acc.any (fun p => p.1 == key) with
  | true =>
    rw [insertEntry_keys_mem _ _ _ hany]
    exact h
  | false =>
    rw [insertEntry_keys_append _ _ _ hany, List.nodup_append]
    refine ⟨h, List.nodup_singleton _, ?_⟩
    intro a ha hb
    rw [List.mem_singleton] at hb
    rw [hb] at ha
    have hmem : ∃ p ∈ acc, (p.1 == key) = true := by
      rw [List.mem_map] at ha
      obtain ⟨p, hp, he⟩ := ha
      exact ⟨p, hp, beq_iff_eq.mpr he⟩
    rw [← List.any_eq_true, hany] at hmem
    exact absurd hmem (by simp)

theorem insertEntry_mem_keys (acc : List (String × ModelSchemas)) (key : String)
    (value : ModelSchemas) (k : String) :
    k ∈ (insertEntry acc key value).map Prod.fst ↔ (k ∈ acc.map Prod.fst ∨ k = key) := by
  cases hany : acc.any (fun p => p.1 == key) with
  | true =>
    rw [insertEntry_keys_mem _ _ _ hany]
    constructor
    · exact Or.inl
    · rintro (h | rfl)
      · exact h
      · rw [List.any_eq_true] at hany
        obtain ⟨p, hp, hbeq⟩ := hany
        exact List.mem_map.mpr ⟨p, hp, eq_of_beq hbeq⟩
  | false =>
    rw [insertEntry_keys_append _ _ _ hany]
    simp [List.mem_append]

theorem buildModelSchemasAux_error (snake camel : String → String) (schema : GraphQLSchema)
    (options : BuildModelSchemaOptions) :
    ∀ (models : List String) (acc : List (String × ModelSchemas)),
      (∃ m ∈ models, allListsEmpty snake camel schema options m) →
      ∃ m ∈ models, allListsEmpty snake camel schema options m ∧
        buildModelSchemasAux snake camel schema options models acc
          = Except.error (modelNotFoundMessage m) := by
  intro models
  induction models with
  | nil =>
    rintro acc ⟨m, hm, _⟩
    exact absurd hm (List.not_mem_nil m)
  | cons m0 rest ih =>
    intro acc hex
    by_cases h0 : allListsEmpty snake camel schema options m0
    · refine ⟨m0, List.mem_cons_self m0 rest, h0, ?_⟩
      have herr : buildModelEntry snake camel schema options m0
          = Except.error (modelNotFoundMessage m0) :=
        (buildModelEntry_error_iff snake camel schema options m0 _).mpr ⟨h0, rfl⟩
      simp only [buildModelSchemasAux, herr]
    · obtain ⟨v, hv⟩ : ∃ v, buildModelEntry snake camel schema options m0 = Except.ok v :=
        ⟨_, (buildModelEntry_ok_iff snake camel schema options m0 _).mpr ⟨h0, rfl⟩⟩
      have hex2 : ∃ m ∈ rest, allListsEmpty snake camel schema options m := by
        obtain ⟨m, hm, hme⟩ := hex
        rcases List.mem_cons.mp hm with rfl | hm2
        · exact absurd hme h0
        · exact ⟨m, hm2, hme⟩
      obtain ⟨m, hm, hme, heq⟩ := ih (insertEntry acc m0 v) hex2
      refine ⟨m, List.mem_cons_of_mem _ hm, hme, ?_⟩
      simp only [buildModelSchemasAux, hv]
      exact heq

theorem buildModelSchemasAux_ok (snake camel : String → String) (schema : GraphQLSchema)
    (options : BuildModelSchemaOptions) :
    ∀ (models : List String) (acc : List (String × ModelSchemas)),
      (∀ m ∈ models, ¬ allListsEmpty snake camel schema options m) →
      (acc.map Prod.fst).Nodup →
      ∃ l, buildModelSchemasAux snake camel schema options models acc = Except.ok l ∧
        (l.map Prod.fst).Nodup ∧
        (∀ k, k ∈ l.map Prod.fst ↔ (k ∈ models ∨ k ∈ acc.map Prod.fst)) := by
  intro models
  induction models with
  | nil =>
    intro acc _ hnd
    exact ⟨acc, rfl, hnd, fun k => by simp⟩
  | cons m0 rest ih =>
    intro acc hall hnd
    have h0 := hall m0 (List.mem_cons_self m0 rest)
    have hv : buildModelEntry snake camel schema options m0
        = Except.ok (buildModelResult snake camel schema options m0) :=
      (buildModelEntry_ok_iff snake camel schema options m0 _).mpr ⟨h0, rfl⟩
    have hnd2 := insertEntry_keys_nodup acc m0
      (buildModelResult snake camel schema options m0) hnd
    obtain ⟨l, hl, hlnd, hmem⟩ :=
      ih (insertEntry acc m0 (buildModelResult snake camel schema options m0))
        (fun m hm => hall m (List.mem_cons_of_mem _ hm)) hnd2
    refine ⟨l, ?_, hlnd, ?_⟩
    · simp only [buildModelSchemasAux, hv]
      exact hl
    · intro k
      rw [hmem k, insertEntry_mem_keys]
      simp only [List.mem_cons]
      tauto

theorem buildObjectSchemaList_empty {t : Option GqlTypeDef}
    {options : BuildModelSchemaOptions} (h : isObjectTypeO t = false) :
    buildObjectSchemaList t options = [] := by
  cases t with
  | none => rfl
  | some td =>
    simp only [isObjectTypeO] at h
    simp [buildObjectSchemaList, h]

theorem buildInputSchemaList_empty {t : Option GqlTypeDef}
    {options : BuildModelSchemaOptions} (h : isInputObjectTypeO t = false) :
    buildInputSchemaList t options = [] := by
  cases t with
  | none => rfl
  | some td =>
    simp only [isInputObjectTypeO] at h
    simp [buildInputSchemaList, h]

theorem mem_buildObjectSchemaList {t : Option GqlTypeDef}
    {options : BuildModelSchemaOptions} {f : ModelFieldSchema}
    (hf : f ∈ buildObjectSchemaList t options) :
    ∃ td, t = some td ∧ f ∈ buildModelSchema td options := by
  cases t with
  | none => exact absurd hf (by simp [buildObjectSchemaList])
  | some td =>
    by_cases hk : (td.kind == TypeKind.objectType) = true
    · refine ⟨td, rfl, ?_⟩
      simpa [buildObjectSchemaList, hk] using hf
    · exact absurd hf (by simp [buildObjectSchemaList, hk])

theorem mem_buildInputSchemaList {t : Option GqlTypeDef}
    {options : BuildModelSchemaOptions} {f : ModelFieldSchema}
    (hf : f ∈ buildInputSchemaList t options) :
    ∃ td, t = some td ∧ f ∈ buildModelSchema td options := by
  cases t with
  | none => exact absurd hf (by simp [buildInputSchemaList])
  | some td =>
    by_cases hk : (td.kind == TypeKind.inputObjectType) = true
    · refine ⟨td, rfl, ?_⟩
      simpa [buildInputSchemaList, hk] using hf
    · exact absurd hf (by simp [buildInputSchemaList, hk])

theorem mem_modelList_not_disabled {snake camel : String → String} {schema : GraphQLSchema}
    {options : BuildModelSchemaOptions} {modelName : String} {f : ModelFieldSchema}
    (hf : f ∈ modelList snake camel schema options modelName) :
    isFieldDisabled options f.name = false := by
  rw [modelList] at hf
  obtain ⟨td, _, hm⟩ := mem_buildObjectSchemaList hf
  exact buildModelSchema_not_disabled hm

theorem primaryKeysList_pk (snake camel : String → String) (schema : GraphQLSchema)
    (options : BuildModelSchemaOptions) (modelName : String) (td : GqlTypeDef)
    (h : resolvePkInputType snake camel schema modelName = some td)
    (hk : td.kind = TypeKind.inputObjectType) :
    primaryKeysList snake camel schema options modelName = buildModelSchema td options := by
  simp [primaryKeysList, h, hk]

theorem primaryKeysList_fallback (snake camel : String → String) (schema : GraphQLSchema)
    (options : BuildModelSchemaOptions) (modelName : String)
    (h : isInputObjectTypeO (resolvePkInputType snake camel schema modelName) = false) :
    primaryKeysList snake camel schema options modelName
      = (modelList snake camel schema options modelName).filter
          (fun m => pkNameMatch options m.name) := by
  cases hr : resolvePkInputType snake camel schema modelName with
  | none => simp only [primaryKeysList, hr]
  | some td =>
    rw [hr] at h
    simp only [isInputObjectTypeO] at h
    simp [primaryKeysList, hr, h]

theorem primaryKeysList_not_disabled {snake camel : String → String} {schema : GraphQLSchema}
    {options : BuildModelSchemaOptions} {modelName : String} {f : ModelFieldSchema}
    (hf : f ∈ primaryKeysList snake camel schema options modelName) :
    isFieldDisabled options f.name = false := by
  cases hr : resolvePkInputType snake camel schema modelName with
  | none =>
    simp only [primaryKeysList, hr] at hf
    exact mem_modelList_not_disabled (List.mem_of_mem_filter hf)
  | some td =>
    by_cases hk : (td.kind == TypeKind.inputObjectType) = true
    · simp only [primaryKeysList, hr, hk, if_true] at hf
      exact buildModelSchema_not_disabled hf
    · simp only [primaryKeysList, hr, hk, Bool.false_eq_true, if_false] at hf
      exact mem_modelList_not_disabled (List.mem_of_mem_filter hf)

/-- Claim C2 is refuted at this input: unwrapping a list of non-null Int
with the builder seed yields a descriptor whose `nullable` is `false`,
although the outermost wrapper encountered is a list wrapper, so
nullability does not record only the outermost wrapper. -/
theorem C2_counterexample :
    (getInnerSchemaType
        (GqlType.list (GqlType.nonNull (GqlType.named "Int" TypeKind.scalarType)))
        (initFieldSchema "f")).map ModelFieldSchema.nullable ≠ some true
    ∧ (getInnerSchemaType
        (GqlType.list (GqlType.nonNull (GqlType.named "Int" TypeKind.scalarType)))
        (initFieldSchema "f")).map ModelFieldSchema.nullable = some false :=
  ⟨by decide, rfl⟩

/-- Claim C2 (amended): the descriptor produced by the Type Unwrapper for
the builder seed has `nullable = false` exactly when a non-null wrapper
occurs anywhere along the wrapper spine, at any depth, including inside
list wrappers; it is not restricted to the outermost wrapper. -/
theorem C2_unwrapper_nullable (t : GqlType) (key : String) (r : ModelFieldSchema)
    (h : getInnerSchemaType t (initFieldSchema key) = some r) :
    r.nullable = !spineHasNonNull t := by
  have hn := getInnerSchemaType_nullable t (initFieldSchema key) r h
  simpa [initFieldSchema] using hn

/-- Witness for C2_unwrapper_nullable at a concrete non-null Int field. -/
theorem C2_witness :
    ({ name := "f", type := "Int", array := false, nullable := false, isEnum := false } :
      ModelFieldSchema).nullable
      = !spineHasNonNull (GqlType.nonNull (GqlType.named "Int" TypeKind.scalarType)) :=
  C2_unwrapper_nullable (GqlType.nonNull (GqlType.named "Int" TypeKind.scalarType)) "f"
    { name := "f", type := "Int", array := false, nullable := false, isEnum := false }
    (by decide)

/-- Claim C9: a bare scalar or enum leaf unwraps to a descriptor with
`array = false`, `nullable = true` and `type` the leaf name (with
`isEnum` set for enums); a non-null list of non-null Int unwraps to
`type = Int, array = true, nullable = false`; and list wrappers collapse
into the single `array` flag regardless of nesting depth. -/
theorem C9_unwrap_leaves_and_wrappers :
    (∀ (n key : String),
      getInnerSchemaType (GqlType.named n TypeKind.scalarType) (initFieldSchema key)
        = some { name := key, type := n, array := false, nullable := true, isEnum := false })
    ∧ (∀ (n key : String),
      getInnerSchemaType (GqlType.named n TypeKind.enumType) (initFieldSchema key)
        = some { name := key, type := n, array := false, nullable := true, isEnum := true })
    ∧ (∀ (key : String),
      getInnerSchemaType
          (GqlType.nonNull (GqlType.list (GqlType.nonNull
            (GqlType.named "Int" TypeKind.scalarType))))
          (initFieldSchema key)
        = some { name := key, type := "Int", array := true, nullable := false, isEnum := false })
    ∧ (∀ (t : GqlType) (seed r : ModelFieldSchema),
      getInnerSchemaType t seed = some r → r.array = (seed.array || spineHasList t)) :=
  ⟨fun _ _ => rfl, fun _ _ => rfl, fun _ => rfl,
   fun t seed r h => getInnerSchemaType_array t seed r h⟩

/-- Witness for C9_unwrap_leaves_and_wrappers at concrete inputs. -/
theorem C9_witness :
    getInnerSchemaType (GqlType.named "uuid" TypeKind.scalarType) (initFieldSchema "id")
      = some { name := "id", type := "uuid", array := false, nullable := true, isEnum := false }
    ∧ ({ name := "tags", type := "Int", array := true, nullable := false, isEnum := false } :
        ModelFieldSchema).array
      = (({ name := "tags", type := "", array := false, nullable := true, isEnum := false } :
          ModelFieldSchema).array
        || spineHasList (GqlType.nonNull (GqlType.list (GqlType.nonNull
              (GqlType.named "Int" TypeKind.scalarType))))) :=
  ⟨C9_unwrap_leaves_and_wrappers.1 "uuid" "id",
   C9_unwrap_leaves_and_wrappers.2.2.2
     (GqlType.nonNull (GqlType.list (GqlType.nonNull (GqlType.named "Int" TypeKind.scalarType))))
     { name := "tags", type := "", array := false, nullable := true, isEnum := false }
     { name := "tags", type := "Int", array := true, nullable := false, isEnum := false }
     (by decide)⟩

/-- Claim C5: a field name is excluded exactly when it matches an entry of
`disableFields`, or starts with an entry of `disableFieldPrefixes`, or
ends with an entry of `disableFieldSuffixes`; the three rules are
combined by OR, and absent rule lists exclude nothing. -/
theorem C5_field_filter_or_semantics :
    (∀ (options : BuildModelSchemaOptions) (key : String),
      isFieldDisabled options key = true ↔
        ((∃ l, options.disableFields = some l ∧ key ∈ l)
          ∨ (∃ l p, options.disableFieldPrefixes = some l ∧ p ∈ l ∧ key.startsWith p = true)
          ∨ (∃ l s, options.disableFieldSuffixes = some l ∧ s ∈ l ∧ key.endsWith s = true)))
    ∧ (∀ (pk : Option (List String)) (hf tf : List String) (key : String),
        isFieldDisabled
          { disableFields := none, disableFieldPrefixes := none, disableFieldSuffixes := none,
            primaryKeyNames := pk, headFields := hf, tailFields := tf } key = false) := by
  constructor
  · intro options key
    rcases options with ⟨df, dp, ds, pk, hf, tf⟩
    rw [isFieldDisabled]
    cases df <;> cases dp <;> cases ds <;>
      simp [List.any_eq_true, List.contains_iff_exists_mem_beq, beq_iff_eq, or_assoc]
  · intro pk hf tf key
    rfl

/-- Claim C6 is refuted at this input: a field whose innermost type is a
union type does produce a FieldDescriptor (the source only drops object
and input-object leaves), so not every produced descriptor has a scalar
or enum leaf type. -/
theorem C6_counterexample :
    buildModelSchema
        { kind := TypeKind.objectType,
          fields := [("u", GqlType.named "SearchResult" TypeKind.unionType)] }
        { disableFields := none, disableFieldPrefixes := none, disableFieldSuffixes := none,
          primaryKeyNames := none, headFields := [], tailFields := [] }
      = [{ name := "u", type := "SearchResult", array := false, nullable := true,
           isEnum := false }]
    ∧ leafKind (GqlType.named "SearchResult" TypeKind.unionType) ≠ TypeKind.scalarType
    ∧ leafKind (GqlType.named "SearchResult" TypeKind.unionType) ≠ TypeKind.enumType :=
  ⟨rfl, by decide, by decide⟩

/-- Claim C6 (amended): fields whose innermost named type is an object or
input-object type never unwrap to a descriptor, hence never appear in any
produced field list; every descriptor produced by `buildModelSchema`
comes from a field whose leaf kind is neither object nor input-object
(scalar, enum, interface or union are all kept); and the Field Orderer
introduces no descriptors, so the guarantee carries to the ordered lists. -/
theorem C6_object_leaf_exclusion :
    (∀ (t : GqlType) (seed : ModelFieldSchema),
      (leafKind t = TypeKind.objectType ∨ leafKind t = TypeKind.inputObjectType) →
      getInnerSchemaType t seed = none)
    ∧ (∀ (td : GqlTypeDef) (options : BuildModelSchemaOptions) (f : ModelFieldSchema),
      f ∈ buildModelSchema td options →
      ∃ kv, kv ∈ td.fields ∧ leafKind kv.2 ≠ TypeKind.objectType ∧
        leafKind kv.2 ≠ TypeKind.inputObjectType ∧
        getInnerSchemaType kv.2 (initFieldSchema kv.1) = some f)
    ∧ (∀ (fields : List ModelFieldSchema) (hf tf : List String) (f : ModelFieldSchema),
      f ∈ sortFieldOrder fields hf tf → f ∈ fields) := by
  refine ⟨?_, ?_, ?_⟩
  · intro t seed h
    exact (getInnerSchemaType_none_iff t seed).mpr h
  · intro td options f hmem
    obtain ⟨kv, hkv, _, hg⟩ := mem_buildModelSchema.mp hmem
    have hnone : ¬(leafKind kv.2 = TypeKind.objectType
        ∨ leafKind kv.2 = TypeKind.inputObjectType) := by
      intro hcon
      rw [(getInnerSchemaType_none_iff kv.2 (initFieldSchema kv.1)).mpr hcon] at hg
      exact absurd hg (by simp)
    push_neg at hnone
    exact ⟨kv, hkv, hnone.1, hnone.2, hg⟩
  · intro fields hf tf f hmem
    exact mem_of_mem_sortFieldOrder hmem

/-- Witness for C6_object_leaf_exclusion: an object-typed leaf unwraps to
nothing. -/
theorem C6_witness :
    getInnerSchemaType (GqlType.named "users" TypeKind.objectType) (initFieldSchema "rel")
      = none :=
  C6_object_leaf_exclusion.1 (GqlType.named "users" TypeKind.objectType)
    (initFieldSchema "rel") (Or.inl rfl)

/-- Claim C3: the Field Orderer output is exactly the head-matched fields
in headNames first-occurrence order, then the fields whose name is in
neither name list in discovery order, then the tail-matched fields (among
the fields not claimed by the head pass) in tailNames order; names with
no matching field are skipped, and a name in both lists lands in the head
segment only, since the tail lookup runs on the head-free remainder. -/
theorem C3_field_orderer_three_part (fields : List ModelFieldSchema)
    (headFields tailFields : List String) :
    sortFieldOrder fields headFields tailFields =
      pickList fields (dedupKeepFirst headFields)
        ++ fields.filter (fun f => !headFields.contains f.name && !tailFields.contains f.name)
        ++ pickList (fields.filter (fun f => !headFields.contains f.name))
             (dedupKeepFirst tailFields) :=
  sortFieldOrder_eq fields headFields tailFields

/-- Claim C10: when the field names are pairwise distinct, the Field
Orderer returns a permutation of its input, in particular of the same
length, so non-emptiness of the ordered lists agrees with non-emptiness
of the unordered lists the permissions are derived from. -/
theorem C10_field_orderer_perm (fields : List ModelFieldSchema)
    (headFields tailFields : List String)
    (hnd : (fields.map ModelFieldSchema.name).Nodup) :
    sortFieldOrder fields headFields tailFields ~ fields
      ∧ (sortFieldOrder fields headFields tailFields).length = fields.length := by
  have h := sortFieldOrder_perm fields headFields tailFields hnd
  exact ⟨h, h.length_eq⟩

/-- Witness for C10_field_orderer_perm at a concrete two-field list. -/
theorem C10_witness :
    sortFieldOrder
        [{ name := "id", type := "Int", array := false, nullable := false, isEnum := false },
         { name := "name", type := "String", array := false, nullable := true, isEnum := false }]
        ["name"] ["absent"]
      ~ [{ name := "id", type := "Int", array := false, nullable := false, isEnum := false },
         { name := "name", type := "String", array := false, nullable := true, isEnum := false }]
    ∧ (sortFieldOrder
        [{ name := "id", type := "Int", array := false, nullable := false, isEnum := false },
         { name := "name", type := "String", array := false, nullable := true, isEnum := false }]
        ["name"] ["absent"]).length
      = ([{ name := "id", type := "Int", array := false, nullable := false, isEnum := false },
          { name := "name", type := "String", array := false, nullable := true, isEnum := false }] :
          List ModelFieldSchema).length :=
  C10_field_orderer_perm _ _ _ (by decide)

/-- Claim C8: for each of the four types the resolver uses the snake-form
candidate whenever that lookup has the expected kind, so it always wins
over the camelCase candidate; only otherwise is the camelCase candidate
used (unchecked at lookup time); and when neither candidate has the
expected kind the contribution is empty (for the pk type: the name-based
fallback), not an error. -/
theorem C8_resolver_precedence (snake camel : String → String) (schema : GraphQLSchema)
    (options : BuildModelSchemaOptions) (modelName : String) :
    (isObjectTypeO (schema.getType (snake modelName)) = true →
      resolveModelType snake camel schema modelName = schema.getType (snake modelName))
    ∧ (isObjectTypeO (schema.getType (snake modelName)) = false →
      resolveModelType snake camel schema modelName = schema.getType (camel modelName))
    ∧ (isObjectTypeO (schema.getType (snake modelName)) = false →
      isObjectTypeO (schema.getType (camel modelName)) = false →
      modelList snake camel schema options modelName = [])
    ∧ (isInputObjectTypeO (schema.getType (insertInputTypeName snake modelName)) = true →
      resolveInsertInputType snake camel schema modelName
        = schema.getType (insertInputTypeName snake modelName))
    ∧ (isInputObjectTypeO (schema.getType (insertInputTypeName snake modelName)) = false →
      resolveInsertInputType snake camel schema modelName
        = schema.getType (camel (insertInputTypeName snake modelName)))
    ∧ (isInputObjectTypeO (schema.getType (insertInputTypeName snake modelName)) = false →
      isInputObjectTypeO (schema.getType (camel (insertInputTypeName snake modelName))) = false →
      insertInputList snake camel schema options modelName = [])
    ∧ (isInputObjectTypeO (schema.getType (setInputTypeName snake modelName)) = true →
      resolveSetInputType snake camel schema modelName
        = schema.getType (setInputTypeName snake modelName))
    ∧ (isInputObjectTypeO (schema.getType (setInputTypeName snake modelName)) = false →
      resolveSetInputType snake camel schema modelName
        = schema.getType (camel (setInputTypeName snake modelName)))
    ∧ (isInputObjectTypeO (schema.getType (setInputTypeName snake modelName)) = false →
      isInputObjectTypeO (schema.getType (camel (setInputTypeName snake modelName))) = false →
      setInputList snake camel schema options modelName = [])
    ∧ (isInputObjectTypeO (schema.getType (pkColumnsTypeName snake modelName)) = true →
      resolvePkInputType snake camel schema modelName
        = schema.getType (pkColumnsTypeName snake modelName))
    ∧ (isInputObjectTypeO (schema.getType (pkColumnsTypeName snake modelName)) = false →
      resolvePkInputType snake camel schema modelName
        = schema.getType (camel (pkColumnsTypeName snake modelName)))
    ∧ (isInputObjectTypeO (schema.getType (pkColumnsTypeName snake modelName)) = false →
      isInputObjectTypeO (schema.getType (camel (pkColumnsTypeName snake modelName))) = false →
      primaryKeysList snake camel schema options modelName
        = (modelList snake camel schema options modelName).filter
            (fun m => pkNameMatch options m.name)) := by
  refine ⟨?_, ?_, ?_, ?_, ?_, ?_, ?_, ?_, ?_, ?_, ?_, ?_⟩
  · intro h
    rw [resolveModelType, if_pos h]
  · intro h
    rw [resolveModelType, if_neg (by simp [h])]
  · intro h1 h2
    rw [modelList, resolveModelType, if_neg (by simp [h1])]
    exact buildObjectSchemaList_empty h2
  · intro h
    rw [resolveInsertInputType, if_pos h]
  · intro h
    rw [resolveInsertInputType, if_neg (by simp [h])]
  · intro h1 h2
    rw [insertInputList, resolveInsertInputType, if_neg (by simp [h1])]
    exact buildInputSchemaList_empty h2
  · intro h
    rw [resolveSetInputType, if_pos h]
  · intro h
    rw [resolveSetInputType, if_neg (by simp [h])]
  · intro h1 h2
    rw [setInputList, resolveSetInputType, if_neg (by simp [h1])]
    exact buildInputSchemaList_empty h2
  · intro h
    rw [resolvePkInputType, if_pos h]
  · intro h
    rw [resolvePkInputType, if_neg (by simp [h])]
  · intro h1 h2
    refine primaryKeysList_fallback snake camel schema options modelName ?_
    rw [resolvePkInputType, if_neg (by simp [h1])]
    exact h2

/-- Witness for C8_resolver_precedence: the snake candidate is an object
type in the witness schema, so it is chosen. -/
theorem C8_witness :
    resolveModelType (fun s => s) (fun s => s) wSchema "users" = wSchema.getType "users" :=
  (C8_resolver_precedence (fun s => s) (fun s => s) wSchema wOptions "users").1 (by decide)

/-- Claim C4: when the pk-input type resolves as an input-object type,
`primaryKeys` is exactly its filtered field list, with no head and tail
reordering applied; otherwise it is the already-filtered model field list
restricted to `primaryKeyNames`; either way every primary key survives
the disable rules, so an excluded key field can never reappear. -/
theorem C4_primary_keys (snake camel : String → String) (schema : GraphQLSchema)
    (options : BuildModelSchemaOptions) (modelName : String) (result : ModelSchemas)
    (h : buildModelEntry snake camel schema options modelName = Except.ok result) :
    (∀ td, resolvePkInputType snake camel schema modelName = some td →
      td.kind = TypeKind.inputObjectType →
      result.primaryKeys = buildModelSchema td options)
    ∧ (isInputObjectTypeO (resolvePkInputType snake camel schema modelName) = false →
      result.primaryKeys = (modelList snake camel schema options modelName).filter
        (fun m => pkNameMatch options m.name))
    ∧ (∀ f ∈ result.primaryKeys, isFieldDisabled options f.name = false) := by
  obtain ⟨-, rfl⟩ := (buildModelEntry_ok_iff snake camel schema options modelName result).mp h
  refine ⟨?_, ?_, ?_⟩
  · intro td htd hk
    show primaryKeysList snake camel schema options modelName = buildModelSchema td options
    exact primaryKeysList_pk snake camel schema options modelName td htd hk
  · intro hni
    show primaryKeysList snake camel schema options modelName
      = (modelList snake camel schema options modelName).filter
          (fun m => pkNameMatch options m.name)
    exact primaryKeysList_fallback snake camel schema options modelName hni
  · intro f hf
    exact primaryKeysList_not_disabled hf

/-- Witness for C4_primary_keys: the witness schema has no pk-input type,
so the fallback filter applies. -/
theorem C4_witness :
    (buildModelResult (fun s => s) (fun s => s) wSchema wOptions "users").primaryKeys
      = (modelList (fun s => s) (fun s => s) wSchema wOptions "users").filter
          (fun m => pkNameMatch wOptions m.name) :=
  ((C4_primary_keys (fun s => s) (fun s => s) wSchema wOptions "users"
      (buildModelResult (fun s => s) (fun s => s) wSchema wOptions "users")
      (by rfl)).2.1) (by decide)

/-- Claim C7: in a successfully built descriptor, `get`, `insert` and
`update` are exactly non-emptiness of the filtered model, insert-input
and set-input lists, and `delete` holds exactly when the mutation root
exists and has a `delete_<snake(modelName)>` field or its camelCase
equivalent. -/
theorem C7_permission_derivation (snake camel : String → String) (schema : GraphQLSchema)
    (options : BuildModelSchemaOptions) (modelName : String) (result : ModelSchemas)
    (h : buildModelEntry snake camel schema options modelName = Except.ok result) :
    (result.permissions.get = true ↔ modelList snake camel schema options modelName ≠ [])
    ∧ (result.permissions.insert = true
        ↔ insertInputList snake camel schema options modelName ≠ [])
    ∧ (result.permissions.update = true
        ↔ setInputList snake camel schema options modelName ≠ [])
    ∧ (result.permissions.delete = true ↔
        ∃ mf, schema.mutationFields = some mf ∧
          (("delete_" ++ snake modelName) ∈ mf
            ∨ camel ("delete_" ++ snake modelName) ∈ mf)) := by
  obtain ⟨-, rfl⟩ := (buildModelEntry_ok_iff snake camel schema options modelName result).mp h
  refine ⟨?_, ?_, ?_, ?_⟩
  · show decide (0 < (modelList snake camel schema options modelName).length) = true ↔ _
    simp [List.length_pos]
  · show decide (0 < (insertInputList snake camel schema options modelName).length) = true ↔ _
    simp [List.length_pos]
  · show decide (0 < (setInputList snake camel schema options modelName).length) = true ↔ _
    simp [List.length_pos]
  · show canDeleteModel snake camel schema modelName = true ↔ _
    cases hm : schema.mutationFields with
    | none => simp [canDeleteModel, hm]
    | some mf =>
      simp [canDeleteModel, hm, List.contains_iff_exists_mem_beq, beq_iff_eq]

/-- Witness for C7_permission_derivation: the witness schema has a
`delete_users` mutation field. -/
theorem C7_witness :
    ((buildModelResult (fun s => s) (fun s => s) wSchema wOptions "users").permissions.delete
        = true
      ↔ ∃ mf, wSchema.mutationFields = some mf ∧
          (("delete_" ++ "users") ∈ mf ∨ ("delete_" ++ "users") ∈ mf)) :=
  (C7_permission_derivation (fun s => s) (fun s => s) wSchema wOptions "users"
    (buildModelResult (fun s => s) (fun s => s) wSchema wOptions "users") (by rfl)).2.2.2

/-- Claim C1: if some requested model has all three filtered lists empty,
the whole batch call fails with the not-found-or-unauthorized error
carrying an offending model name (and no result map is produced);
conversely when every requested model has a non-empty list among the
three, the call returns a map with exactly one entry per requested model
name. -/
theorem C1_builder_failfast (snake camel : String → String) (schema : GraphQLSchema)
    (models : List String) (options : BuildModelSchemaOptions) :
    ((∃ m ∈ models, allListsEmpty snake camel schema options m) →
      ∃ m ∈ models, allListsEmpty snake camel schema options m ∧
        buildModelSchemas snake camel schema models options
          = Except.error (modelNotFoundMessage m))
    ∧ ((∀ m ∈ models, ¬ allListsEmpty snake camel schema options m) →
      ∃ l, buildModelSchemas snake camel schema models options = Except.ok l ∧
        (l.map Prod.fst).Nodup ∧ (∀ k, k ∈ l.map Prod.fst ↔ k ∈ models)) := by
  constructor
  · intro hex
    exact buildModelSchemasAux_error snake camel schema options models [] hex
  · intro hall
    obtain ⟨l, hl, hnd, hmem⟩ :=
      buildModelSchemasAux_ok snake camel schema options models [] hall (by simp)
    refine ⟨l, hl, hnd, fun k => ?_⟩
    rw [hmem k]
    simp

/-- Witness for C1_builder_failfast: requesting a model absent from the
witness schema fails with the message naming it. -/
theorem C1_witness :
    ∃ m ∈ ["ghost_table"], allListsEmpty (fun s => s) (fun s => s) wSchema wOptions m ∧
      buildModelSchemas (fun s => s) (fun s => s) wSchema ["ghost_table"] wOptions
        = Except.error (modelNotFoundMessage m) :=
  (C1_builder_failfast (fun s => s) (fun s => s) wSchema ["ghost_table"] wOptions).1
    ⟨"ghost_table", by decide, by decide⟩
